import Mathlib

/-!
Shallow embedding of the two solver notebooks of the EquationAgregation
repository, over exact rational arithmetic:

* the 1-D continuum predator-prey solver (upwind finite-volume scheme),
  file ProiePredateurContinu1D.ipynb;
* the 2-D discrete particle solver (explicit Euler with pairwise forces),
  file ProiePredateurDiscret2D.ipynb.

One-dimensional numpy arrays of length `n` are embedded as functions
`ℕ → ℚ`, meaningful below `n` and kept unchanged above it; matrices as
functions `ℕ → ℕ → ℚ`; numpy boolean masks as 0/1 indicators; `np.sqrt`
as an abstract parameter function, with its two order-theoretic
properties (nonnegativity on nonnegative inputs, and vanishing exactly
at zero) taken as hypotheses where a proof needs them.
-/

namespace EqAgg

/-! ### Continuum model (ProiePredateurContinu1D.ipynb) -/

/-- Run configuration of the continuum notebook: grid bounds, grid and
time resolutions, final time, prey speed `beta`, and the three
interaction-potential derivative functions (`dxW1`, `dxW2`, `dxK` in the
source; `np.sign` in the concrete run). -/
structure CParams where
  xmin : ℚ
  xmax : ℚ
  Nx : ℕ
  Nt : ℕ
  tf : ℚ
  beta : ℚ
  dxW1 : ℚ → ℚ
  dxW2 : ℚ → ℚ
  dxK : ℚ → ℚ

/-- Entry `i` of the spatial grid `grid = np.linspace(xmin, xmax, Nx)`. -/
def gridPt (p : CParams) (i : ℕ) : ℚ :=
  p.xmin + i * (p.xmax - p.xmin) / ((p.Nx : ℚ) - 1)

/-- Entry `n` of the time discretisation `T = np.linspace(0, tf, Nt)`. -/
def Tpt (p : CParams) (n : ℕ) : ℚ :=
  0 + n * (p.tf - 0) / ((p.Nt : ℚ) - 1)

/-- Space step `Dx = grid[1] - grid[0]`. -/
def Dxv (p : CParams) : ℚ := gridPt p 1 - gridPt p 0

/-- Time step `Dt = T[1] - T[0]`. -/
def Dtv (p : CParams) : ℚ := Tpt p 1 - Tpt p 0

/-- Interaction matrix `W1p = dxW1(np.tile(grid.reshape((Nx,1)),(1,Nx)) - grid)`:
entry `(i, j)` is the derivative of `W1` at `grid[i] - grid[j]`. -/
def W1p (p : CParams) (i j : ℕ) : ℚ := p.dxW1 (gridPt p i - gridPt p j)

/-- Interaction matrix `W2p`, built like `W1p` from `dxW2`. -/
def W2p (p : CParams) (i j : ℕ) : ℚ := p.dxW2 (gridPt p i - gridPt p j)

/-- Interaction matrix `Kp`, built like `W1p` from `dxK`. -/
def Kp (p : CParams) (i j : ℕ) : ℚ := p.dxK (gridPt p i - gridPt p j)

/-- Row `i` of the matrix-vector product `np.dot(M, v)` for an `n × n`
matrix. -/
def matVec (M : ℕ → ℕ → ℚ) (n : ℕ) (v : ℕ → ℚ) (i : ℕ) : ℚ :=
  ∑ l in Finset.range n, M i l * v l

/-- Macroscopic velocity `a1 = -(np.dot(W1p, rho1) + np.dot(Kp, rho2))`. -/
def a1 (p : CParams) (rho1 rho2 : ℕ → ℚ) (i : ℕ) : ℚ :=
  -(matVec (W1p p) p.Nx rho1 i + matVec (Kp p) p.Nx rho2 i)

/-- Macroscopic velocity `a2 = -(np.dot(W2p, rho2) - beta * np.dot(Kp, rho1))`. -/
def a2 (p : CParams) (rho1 rho2 : ℕ → ℚ) (i : ℕ) : ℚ :=
  -(matVec (W2p p) p.Nx rho2 i - p.beta * matVec (Kp p) p.Nx rho1 i)

/-- Positive part `a1p = a1*(a1>=0)` (a numpy boolean mask cast to 0/1). -/
def posPart (a : ℕ → ℚ) (i : ℕ) : ℚ := a i * (if 0 ≤ a i then 1 else 0)

/-- Negative part `a1m = -a1*(a1<=0)`. -/
def negPart (a : ℕ → ℚ) (i : ℕ) : ℚ := -(a i) * (if a i ≤ 0 then 1 else 0)

/-- Mutable state of the continuum solver loop: the two density arrays
and the four shift buffers `rho1_dp`, `rho1_gm`, `rho2_dp`, `rho2_gm`
(all of length `Nx` in the source). -/
@[ext] structure CState where
  rho1 : ℕ → ℚ
  rho2 : ℕ → ℚ
  dp1 : ℕ → ℚ
  gm1 : ℕ → ℚ
  dp2 : ℕ → ℚ
  gm2 : ℕ → ℚ

/-- The slice assignment `rho_dp[1:] = ap[:-1]*rho[:-1]`: entries
`1 ≤ i < Nx` are overwritten, every other entry keeps its old value. -/
def dpNext (Nx : ℕ) (ap rho dpOld : ℕ → ℚ) (i : ℕ) : ℚ :=
  if 1 ≤ i ∧ i < Nx then ap (i - 1) * rho (i - 1) else dpOld i

/-- The slice assignment `rho_gm[:-1] = am[1:]*rho[1:]`: entries
`i < Nx - 1` are overwritten, every other entry keeps its old value. -/
def gmNext (Nx : ℕ) (am rho gmOld : ℕ → ℚ) (i : ℕ) : ℚ :=
  if i + 1 < Nx then am (i + 1) * rho (i + 1) else gmOld i

/-- The in-place density update
`rho -= Dt/Dx*(ap*rho + am*rho - rho_dp - rho_gm)` with `c = Dt/Dx`,
on the `Nx` entries of the array. -/
def rhoNext (Nx : ℕ) (c : ℚ) (ap am rho dpN gmN : ℕ → ℚ) (i : ℕ) : ℚ :=
  if i < Nx then rho i - c * (ap i * rho i + am i * rho i - dpN i - gmN i)
  else rho i

/-- One iteration of the continuum solver loop: compute `a1` and `a2`
from the current densities, split them, fill the shift buffers, and
update both densities. -/
def CStep (p : CParams) (s : CState) : CState where
  rho1 := rhoNext p.Nx (Dtv p / Dxv p)
    (posPart (a1 p s.rho1 s.rho2)) (negPart (a1 p s.rho1 s.rho2)) s.rho1
    (dpNext p.Nx (posPart (a1 p s.rho1 s.rho2)) s.rho1 s.dp1)
    (gmNext p.Nx (negPart (a1 p s.rho1 s.rho2)) s.rho1 s.gm1)
  rho2 := rhoNext p.Nx (Dtv p / Dxv p)
    (posPart (a2 p s.rho1 s.rho2)) (negPart (a2 p s.rho1 s.rho2)) s.rho2
    (dpNext p.Nx (posPart (a2 p s.rho1 s.rho2)) s.rho2 s.dp2)
    (gmNext p.Nx (negPart (a2 p s.rho1 s.rho2)) s.rho2 s.gm2)
  dp1 := dpNext p.Nx (posPart (a1 p s.rho1 s.rho2)) s.rho1 s.dp1
  gm1 := gmNext p.Nx (negPart (a1 p s.rho1 s.rho2)) s.rho1 s.gm1
  dp2 := dpNext p.Nx (posPart (a2 p s.rho1 s.rho2)) s.rho2 s.dp2
  gm2 := gmNext p.Nx (negPart (a2 p s.rho1 s.rho2)) s.rho2 s.gm2

/-- Initial loop state: given initial densities, the four shift buffers
start as `np.zeros(Nx)`. -/
def initC (rho1 rho2 : ℕ → ℚ) : CState where
  rho1 := rho1
  rho2 := rho2
  dp1 := fun _ => 0
  gm1 := fun _ => 0
  dp2 := fun _ => 0
  gm2 := fun _ => 0

/-- Total mass `sum(rho)` of a density array of length `Nx`. -/
def massOf (Nx : ℕ) (v : ℕ → ℚ) : ℚ := ∑ i in Finset.range Nx, v i

/-- Invariant of the shift buffers: entry `0` of the `dp` buffers and
entry `Nx - 1` of the `gm` buffers are never written by the slice
assignments, so they stay at their initial value `0`. -/
def bufInv (p : CParams) (s : CState) : Prop :=
  s.dp1 0 = 0 ∧ s.gm1 (p.Nx - 1) = 0 ∧ s.dp2 0 = 0 ∧ s.gm2 (p.Nx - 1) = 0

/-- Donor-cell flux at the right interface `i+1/2` of cell `i`, written
from the spec sentence
`F_{i+1/2} = a⁺_i·ρ_i − a⁻_{i+1}·ρ_{i+1}` with the convention that
contributions from outside the domain (index `≥ Nx`) are zero. -/
def fluxR (Nx : ℕ) (ap am rho : ℕ → ℚ) (i : ℕ) : ℚ :=
  (if i < Nx then ap i * rho i else 0)
    - (if i + 1 < Nx then am (i + 1) * rho (i + 1) else 0)

/-- Donor-cell flux at the left interface `i-1/2` of cell `i`; for the
first cell this is `F_{-1/2} = a⁺_{-1}·ρ_{-1} − a⁻_0·ρ_0` with the
outside contribution `a⁺_{-1}·ρ_{-1}` zero-padded. -/
def fluxL (Nx : ℕ) (ap am rho : ℕ → ℚ) : ℕ → ℚ
  | 0 => 0 - (if 0 < Nx then am 0 * rho 0 else 0)
  | i + 1 => fluxR Nx ap am rho i

/-- Number of iterations of the continuum solver loop
`for n,t in enumerate(T)` with `T = np.linspace(0, tf, Nt)`:
`len(T) = Nt`. -/
def continuumNumSteps (p : CParams) : ℕ := p.Nt

/-- Whole continuum run: the loop body `CStep` applied once per element
of `T`. -/
def CRun (p : CParams) (s : CState) : CState :=
  (CStep p)^[continuumNumSteps p] s

/-- Python `int()` applied to a rational: truncation toward zero. -/
def pyInt (q : ℚ) : ℤ := if q < 0 then -Int.floor (-q) else Int.floor q

/-- `nT = int(T/(dt))` of the discrete notebook. -/
def nTof (T dt : ℚ) : ℤ := pyInt (T / dt)

/-- Number of iterations of the discrete solver loop
`for n,k in enumerate(linspace(0,T,nT+1))`: `len(linspace(0,T,nT+1)) = nT+1`. -/
def discreteNumSteps (T dt : ℚ) : ℕ := (nTof T dt + 1).toNat

/-- Setup phase of the continuum notebook, as a fallible computation.
`np.linspace` raises `ValueError` on a negative sample count and
`grid[1]` (resp. `T[1]`) raises `IndexError` when the grid (resp. the
time axis) has fewer than two points, so any configuration with
`Nx < 2` or `Nt < 2` aborts before the solver loop; otherwise the setup
yields the steps `Dx` and `Dt`. -/
def continuumSetup (xmin xmax : ℚ) (Nx Nt : ℤ) (tf : ℚ) : Option (ℚ × ℚ) :=
  if Nx < 2 ∨ Nt < 2 then none
  else some ((xmax - xmin) / ((Nx : ℚ) - 1), tf / ((Nt : ℚ) - 1))

/-- Number of solver-loop iterations the continuum notebook executes for
a given configuration: zero when the setup phase raises, and `Nt` (the
length of `T`) otherwise — the loop body is elementwise numpy
arithmetic and raises no exception. -/
def continuumStepsExecuted (xmin xmax : ℚ) (Nx Nt : ℤ) (tf : ℚ) : ℕ :=
  match continuumSetup xmin xmax Nx Nt tf with
  | none => 0
  | some _ => Nt.toNat

/-! ### Discrete model (ProiePredateurDiscret2D.ipynb) -/

/-- Run configuration of the discrete notebook: population sizes, prey
speed `alpha`, time step and final time, the three radial potential
derivative functions, and the square-root routine `np.sqrt` (abstract
here; theorems that need it assume `SqrtOK`). -/
structure DParams where
  N1 : ℕ
  N2 : ℕ
  alpha : ℚ
  dt : ℚ
  Tf : ℚ
  s1prime : ℚ → ℚ
  s2prime : ℚ → ℚ
  kprime : ℚ → ℚ
  sqrtFn : ℚ → ℚ

/-- The two properties of `np.sqrt` the proofs rely on: it is
nonnegative on nonnegative inputs and vanishes exactly at `0`. -/
def SqrtOK (f : ℚ → ℚ) : Prop :=
  (∀ x, 0 ≤ x → 0 ≤ f x) ∧ (∀ x, 0 ≤ x → (f x = 0 ↔ x = 0))

/-- Particle positions: predators `(x1, y1)` (length `N1`) and prey
`(x2, y2)` (length `N2`). -/
@[ext] structure DState where
  x1 : ℕ → ℚ
  y1 : ℕ → ℚ
  x2 : ℕ → ℚ
  y2 : ℕ → ℚ

/-- The zero-distance substitution
`norm = norm*(norm>0) + 1*(norm==0)` applied to one entry. -/
def zeroSub (r : ℚ) : ℚ :=
  r * (if 0 < r then 1 else 0) + 1 * (if r = 0 then 1 else 0)

/-- Predator-predator pairwise distance matrix
`norm1Diff = sqrt(x1Diff**2 + y1Diff**2)` (before substitution). -/
def norm1Diff (p : DParams) (s : DState) (i j : ℕ) : ℚ :=
  p.sqrtFn ((s.x1 i - s.x1 j) ^ 2 + (s.y1 i - s.y1 j) ^ 2)

/-- Predator-prey pairwise distance matrix
`norm12Diff = sqrt(x1x2Diff**2 + y1y2Diff**2)` (before substitution). -/
def norm12Diff (p : DParams) (s : DState) (i j : ℕ) : ℚ :=
  p.sqrtFn ((s.x1 i - s.x2 j) ^ 2 + (s.y1 i - s.y2 j) ^ 2)

/-- Prey-prey pairwise distance matrix
`norm2Diff = sqrt(x2Diff**2 + y2Diff**2)` (before substitution). -/
def norm2Diff (p : DParams) (s : DState) (i j : ℕ) : ℚ :=
  p.sqrtFn ((s.x2 i - s.x2 j) ^ 2 + (s.y2 i - s.y2 j) ^ 2)

/-- `dxS1 = x1Diff * s1prime(norm1Diff) / norm1Diff`, after the
substitution has been applied to `norm1Diff`. -/
def dxS1 (p : DParams) (s : DState) (i j : ℕ) : ℚ :=
  (s.x1 i - s.x1 j) * p.s1prime (zeroSub (norm1Diff p s i j))
    / zeroSub (norm1Diff p s i j)

/-- `dyS1 = y1Diff * s1prime(norm1Diff) / norm1Diff`. -/
def dyS1 (p : DParams) (s : DState) (i j : ℕ) : ℚ :=
  (s.y1 i - s.y1 j) * p.s1prime (zeroSub (norm1Diff p s i j))
    / zeroSub (norm1Diff p s i j)

/-- `dxK = x1x2Diff * kprime(norm12Diff) / norm12Diff`; row index is a
predator, column index a prey. -/
def dxK (p : DParams) (s : DState) (i j : ℕ) : ℚ :=
  (s.x1 i - s.x2 j) * p.kprime (zeroSub (norm12Diff p s i j))
    / zeroSub (norm12Diff p s i j)

/-- `dyK = y1y2Diff * kprime(norm12Diff) / norm12Diff`. -/
def dyK (p : DParams) (s : DState) (i j : ℕ) : ℚ :=
  (s.y1 i - s.y2 j) * p.kprime (zeroSub (norm12Diff p s i j))
    / zeroSub (norm12Diff p s i j)

/-- `dxS2 = x2Diff * s2prime(norm2Diff) / norm2Diff`. -/
def dxS2 (p : DParams) (s : DState) (i j : ℕ) : ℚ :=
  (s.x2 i - s.x2 j) * p.s2prime (zeroSub (norm2Diff p s i j))
    / zeroSub (norm2Diff p s i j)

/-- `dyS2 = y2Diff * s2prime(norm2Diff) / norm2Diff`. -/
def dyS2 (p : DParams) (s : DState) (i j : ℕ) : ℚ :=
  (s.y2 i - s.y2 j) * p.s2prime (zeroSub (norm2Diff p s i j))
    / zeroSub (norm2Diff p s i j)

/-- Predator velocity, x component:
`dx1 = - sum(dxS1, axis=1)/N1 - sum(dxK, axis=1)/N2`. -/
def dx1 (p : DParams) (s : DState) (i : ℕ) : ℚ :=
  (-(∑ j in Finset.range p.N1, dxS1 p s i j)) / (p.N1 : ℚ)
    - (∑ j in Finset.range p.N2, dxK p s i j) / (p.N2 : ℚ)

/-- Predator velocity, y component:
`dy1 = - sum(dyS1, axis=1)/N1 - sum(dyK, axis=1)/N2`. -/
def dy1 (p : DParams) (s : DState) (i : ℕ) : ℚ :=
  (-(∑ j in Finset.range p.N1, dyS1 p s i j)) / (p.N1 : ℚ)
    - (∑ j in Finset.range p.N2, dyK p s i j) / (p.N2 : ℚ)

/-- Prey velocity, x component:
`dx2 = - sum(dxS2, axis=1)/N2 - alpha * sum(dxK.T, axis=1)/N1`
(row `j` of `dxK.T` sums `dxK[k][j]` over predators `k`). -/
def dx2 (p : DParams) (s : DState) (j : ℕ) : ℚ :=
  (-(∑ h in Finset.range p.N2, dxS2 p s j h)) / (p.N2 : ℚ)
    - p.alpha * (∑ k in Finset.range p.N1, dxK p s k j) / (p.N1 : ℚ)

/-- Prey velocity, y component:
`dy2 = - sum(dyS2, axis=1)/N2 - alpha * sum(dyK.T, axis=1)/N1`. -/
def dy2 (p : DParams) (s : DState) (j : ℕ) : ℚ :=
  (-(∑ h in Finset.range p.N2, dyS2 p s j h)) / (p.N2 : ℚ)
    - p.alpha * (∑ k in Finset.range p.N1, dyK p s k j) / (p.N1 : ℚ)

/-- One iteration of the discrete solver loop: pairwise matrices,
velocities, and the explicit Euler update `x += dt*dx`. -/
def DStep (p : DParams) (s : DState) : DState where
  x1 := fun i => if i < p.N1 then s.x1 i + p.dt * dx1 p s i else s.x1 i
  y1 := fun i => if i < p.N1 then s.y1 i + p.dt * dy1 p s i else s.y1 i
  x2 := fun j => if j < p.N2 then s.x2 j + p.dt * dx2 p s j else s.x2 j
  y2 := fun j => if j < p.N2 then s.y2 j + p.dt * dy2 p s j else s.y2 j

/-- Whole discrete run: one `DStep` per element of
`linspace(0, T, nT+1)`. -/
def DRun (p : DParams) (s : DState) : DState :=
  (DStep p)^[discreteNumSteps p.Tf p.dt] s

/-! ### Spec-side statements used to compare code with the spec -/

/-- Modelled from the spec: the x component of the gradient of a radial
potential, `∇S(v) = (v/|v|)·s'(|v|)`, with the derivative defined as
`0` at `r = 0` (spec §4.1); `sq` is the square-root routine. -/
def specGradX (f sq : ℚ → ℚ) (vx vy : ℚ) : ℚ :=
  if sq (vx ^ 2 + vy ^ 2) = 0 then 0
  else vx * f (sq (vx ^ 2 + vy ^ 2)) / sq (vx ^ 2 + vy ^ 2)

/-- Modelled from the spec: the y component of the gradient of a radial
potential. -/
def specGradY (f sq : ℚ → ℚ) (vx vy : ℚ) : ℚ :=
  if sq (vx ^ 2 + vy ^ 2) = 0 then 0
  else vy * f (sq (vx ^ 2 + vy ^ 2)) / sq (vx ^ 2 + vy ^ 2)

/-- Mass law of one upwind step (claim C1): the sums of `rho1` and
`rho2` are exactly conserved when the corresponding density vanishes in
the first and last grid cells, and can only decrease when the boundary
values are nonnegative (for nonnegative `Dt` and positive `Dx`). -/
def MassLaw (p : CParams) (s : CState) : Prop :=
  (s.rho1 0 = 0 → s.rho1 (p.Nx - 1) = 0 →
    massOf p.Nx (CStep p s).rho1 = massOf p.Nx s.rho1)
  ∧ (0 ≤ Dtv p → 0 < Dxv p → 0 ≤ s.rho1 0 → 0 ≤ s.rho1 (p.Nx - 1) →
      massOf p.Nx (CStep p s).rho1 ≤ massOf p.Nx s.rho1)
  ∧ (s.rho2 0 = 0 → s.rho2 (p.Nx - 1) = 0 →
      massOf p.Nx (CStep p s).rho2 = massOf p.Nx s.rho2)
  ∧ (0 ≤ Dtv p → 0 < Dxv p → 0 ≤ s.rho2 0 → 0 ≤ s.rho2 (p.Nx - 1) →
      massOf p.Nx (CStep p s).rho2 ≤ massOf p.Nx s.rho2)

/-- Flux form of one upwind step (claim C2): each density is updated by
`ρ_i ↦ ρ_i − (Δt/Δx)(F_{i+1/2} − F_{i−1/2})` with the donor-cell flux
and zero padding outside the domain, and the split parts agree with
`max(a,0)` and `max(-a,0)`. -/
def FluxForm (p : CParams) (s : CState) : Prop :=
  (∀ i < p.Nx, (CStep p s).rho1 i
      = s.rho1 i - Dtv p / Dxv p *
          (fluxR p.Nx (posPart (a1 p s.rho1 s.rho2))
              (negPart (a1 p s.rho1 s.rho2)) s.rho1 i
            - fluxL p.Nx (posPart (a1 p s.rho1 s.rho2))
                (negPart (a1 p s.rho1 s.rho2)) s.rho1 i))
  ∧ (∀ i < p.Nx, (CStep p s).rho2 i
      = s.rho2 i - Dtv p / Dxv p *
          (fluxR p.Nx (posPart (a2 p s.rho1 s.rho2))
              (negPart (a2 p s.rho1 s.rho2)) s.rho2 i
            - fluxL p.Nx (posPart (a2 p s.rho1 s.rho2))
                (negPart (a2 p s.rho1 s.rho2)) s.rho2 i))
  ∧ (∀ a : ℕ → ℚ, ∀ i,
      posPart a i = max (a i) 0 ∧ negPart a i = max (-(a i)) 0)

/-- Exact per-step mass balance (claim C7): the sum changes only by the
outflow through the two boundary cells. -/
def MassBalance (p : CParams) (s : CState) : Prop :=
  massOf p.Nx (CStep p s).rho1
      = massOf p.Nx s.rho1
        - Dtv p / Dxv p *
          (posPart (a1 p s.rho1 s.rho2) (p.Nx - 1) * s.rho1 (p.Nx - 1)
            + negPart (a1 p s.rho1 s.rho2) 0 * s.rho1 0)
  ∧ massOf p.Nx (CStep p s).rho2
      = massOf p.Nx s.rho2
        - Dtv p / Dxv p *
          (posPart (a2 p s.rho1 s.rho2) (p.Nx - 1) * s.rho2 (p.Nx - 1)
            + negPart (a2 p s.rho1 s.rho2) 0 * s.rho2 0)

/-- CFL condition for the current velocity fields of a state:
`Δt·|a_i|/Δx ≤ 1` for every grid index. -/
def CFL (p : CParams) (s : CState) : Prop :=
  (∀ i < p.Nx, Dtv p * |a1 p s.rho1 s.rho2 i| / Dxv p ≤ 1)
  ∧ (∀ i < p.Nx, Dtv p * |a2 p s.rho1 s.rho2 i| / Dxv p ≤ 1)

/-- Elementwise nonnegativity of both densities of a state. -/
def NonNegState (p : CParams) (s : CState) : Prop :=
  ∀ i < p.Nx, 0 ≤ s.rho1 i ∧ 0 ≤ s.rho2 i

/-- Safety of the directional-derivative matrices (claim C4): after the
substitution every denominator is positive (so no division by zero can
occur and every entry is a well-defined finite rational), a
zero-distance entry has its denominator replaced by `1`, and every
coincident pair — the diagonal self-pairs included — contributes
exactly `0`. -/
def SafeDerivMatrices (p : DParams) (s : DState) : Prop :=
  ∀ i j,
    (0 < zeroSub (norm1Diff p s i j) ∧ 0 < zeroSub (norm12Diff p s i j)
      ∧ 0 < zeroSub (norm2Diff p s i j))
    ∧ (norm1Diff p s i j = 0 →
        zeroSub (norm1Diff p s i j) = 1 ∧ dxS1 p s i j = 0 ∧ dyS1 p s i j = 0)
    ∧ (norm12Diff p s i j = 0 →
        zeroSub (norm12Diff p s i j) = 1 ∧ dxK p s i j = 0 ∧ dyK p s i j = 0)
    ∧ (norm2Diff p s i j = 0 →
        zeroSub (norm2Diff p s i j) = 1 ∧ dxS2 p s i j = 0 ∧ dyS2 p s i j = 0)
    ∧ (dxS1 p s i i = 0 ∧ dyS1 p s i i = 0
        ∧ dxS2 p s i i = 0 ∧ dyS2 p s i i = 0)

/-- Agreement of the implemented velocities with the spec formulas
(claim C5): predator velocity is minus the mean of the self gradient
terms minus the mean of the cross gradient terms, and prey velocity is
minus the mean of the self gradient terms PLUS `alpha` times the mean
of `∇K` evaluated at prey-minus-predator differences. -/
def VelocitySpecForm (p : DParams) (s : DState) : Prop :=
  (∀ i, dx1 p s i
      = (-(∑ k in Finset.range p.N1,
            specGradX p.s1prime p.sqrtFn (s.x1 i - s.x1 k) (s.y1 i - s.y1 k))) / (p.N1 : ℚ)
        - (∑ h in Finset.range p.N2,
            specGradX p.kprime p.sqrtFn (s.x1 i - s.x2 h) (s.y1 i - s.y2 h)) / (p.N2 : ℚ))
  ∧ (∀ i, dy1 p s i
      = (-(∑ k in Finset.range p.N1,
            specGradY p.s1prime p.sqrtFn (s.x1 i - s.x1 k) (s.y1 i - s.y1 k))) / (p.N1 : ℚ)
        - (∑ h in Finset.range p.N2,
            specGradY p.kprime p.sqrtFn (s.x1 i - s.x2 h) (s.y1 i - s.y2 h)) / (p.N2 : ℚ))
  ∧ (∀ j, dx2 p s j
      = (-(∑ h in Finset.range p.N2,
            specGradX p.s2prime p.sqrtFn (s.x2 j - s.x2 h) (s.y2 j - s.y2 h))) / (p.N2 : ℚ)
        + p.alpha * (∑ k in Finset.range p.N1,
            specGradX p.kprime p.sqrtFn (s.x2 j - s.x1 k) (s.y2 j - s.y1 k)) / (p.N1 : ℚ))
  ∧ (∀ j, dy2 p s j
      = (-(∑ h in Finset.range p.N2,
            specGradY p.s2prime p.sqrtFn (s.x2 j - s.x2 h) (s.y2 j - s.y2 h))) / (p.N2 : ℚ)
        + p.alpha * (∑ k in Finset.range p.N1,
            specGradY p.kprime p.sqrtFn (s.x2 j - s.x1 k) (s.y2 j - s.y1 k)) / (p.N1 : ℚ))

/-! ### Concrete configurations of the two notebooks -/

/-- `np.sign` on rationals. -/
def signQ (x : ℚ) : ℚ := if 0 < x then 1 else if x < 0 then -1 else 0

/-- The concrete parameters of the continuum run: grid on `[-1, 1]` with
`Nx = 256`, `Nt = 1000` time points up to `tf = 2`, `beta = 0.3`, and
`W1 = W2 = K = |x|` so that all three derivatives are `np.sign`. -/
def contP : CParams where
  xmin := -1
  xmax := 1
  Nx := 256
  Nt := 1000
  tf := 2
  beta := 3 / 10
  dxW1 := signQ
  dxW2 := signQ
  dxK := signQ

/-- `s1prime(r) = 0*(r==0) + 0.1*(r>0)` of the discrete notebook. -/
def s1primeFn (r : ℚ) : ℚ :=
  0 * (if r = 0 then 1 else 0) + (1 / 10) * (if 0 < r then 1 else 0)

/-- `kprime(r) = 0*(r==0) + 1*(r>0)` of the discrete notebook. -/
def kprimeFn (r : ℚ) : ℚ :=
  0 * (if r = 0 then 1 else 0) + 1 * (if 0 < r then 1 else 0)

/-- The concrete parameters of the discrete run (`sqrtFn` left abstract
as the identity placeholder is irrelevant to the step counts below):
`N1 = N2 = 400`, `alpha = 0.3`, `dt = 0.005`, `T = 5`. -/
def discP : DParams where
  N1 := 400
  N2 := 400
  alpha := 3 / 10
  dt := 1 / 200
  Tf := 5
  s1prime := s1primeFn
  s2prime := s1primeFn
  kprime := kprimeFn
  sqrtFn := fun x => x

/-! ### Small concrete configurations used to instantiate the theorems -/

/-- A small continuum configuration with zero potentials: grid of 3
cells on `[0, 1]`, two time points up to `tf = 1`. -/
def cWitP : CParams where
  xmin := 0
  xmax := 1
  Nx := 3
  Nt := 2
  tf := 1
  beta := 1
  dxW1 := fun _ => 0
  dxW2 := fun _ => 0
  dxK := fun _ => 0

/-- A density supported in the middle cell of the 3-cell grid. -/
def rWit1 : ℕ → ℚ := fun i => if i = 1 then 1 else 0

/-- A second density supported in the middle cell. -/
def rWit2 : ℕ → ℚ := fun i => if i = 1 then 2 else 0

/-- A small discrete configuration with zero potentials and the
identity as square-root routine (which satisfies `SqrtOK`). -/
def dWitP : DParams where
  N1 := 2
  N2 := 1
  alpha := 1
  dt := 1
  Tf := 1
  s1prime := fun _ => 0
  s2prime := fun _ => 0
  kprime := fun _ => 0
  sqrtFn := fun x => x

/-- A small particle state: two predators (one coincident pair with the
prey) and one prey. -/
def dWitS : DState where
  x1 := fun i => if i = 0 then 0 else 1
  y1 := fun _ => 0
  x2 := fun _ => 0
  y2 := fun _ => 1

/-! ### Helper lemmas: velocity splitting -/

lemma posPart_nonneg (a : ℕ → ℚ) (i : ℕ) : 0 ≤ posPart a i := by
  unfold posPart
  by_cases h : 0 ≤ a i
  · rw [if_pos h, mul_one]; exact h
  · rw [if_neg h, mul_zero]

lemma negPart_nonneg (a : ℕ → ℚ) (i : ℕ) : 0 ≤ negPart a i := by
  unfold negPart
  by_cases h : a i ≤ 0
  · rw [if_pos h, mul_one]; linarith
  · rw [if_neg h, mul_zero]

lemma posPart_eq_max (a : ℕ → ℚ) (i : ℕ) : posPart a i = max (a i) 0 := by
  unfold posPart
  by_cases h : 0 ≤ a i
  · rw [if_pos h, mul_one, max_eq_left h]
  · rw [if_neg h, mul_zero, max_eq_right (by linarith)]

lemma negPart_eq_max (a : ℕ → ℚ) (i : ℕ) : negPart a i = max (-(a i)) 0 := by
  unfold negPart
  by_cases h : a i ≤ 0
  · rw [if_pos h, mul_one, max_eq_left (by linarith)]
  · rw [if_neg h, mul_zero, max_eq_right (by linarith)]

lemma posPart_add_negPart (a : ℕ → ℚ) (i : ℕ) :
    posPart a i + negPart a i = |a i| := by
  rw [posPart_eq_max, negPart_eq_max]
  rcases le_total (a i) 0 with h | h
  · rw [max_eq_right h, max_eq_left (by linarith), abs_of_nonpos h, zero_add]
  · rw [max_eq_left h, max_eq_right (by linarith), abs_of_nonneg h, add_zero]

/-! ### Helper lemmas: shift buffers -/

lemma dpNext_zero (Nx : ℕ) (ap rho dpOld : ℕ → ℚ) :
    dpNext Nx ap rho dpOld 0 = dpOld 0 := by
  unfold dpNext
  rw [if_neg (by omega)]

lemma gmNext_last (Nx : ℕ) (am rho gmOld : ℕ → ℚ) :
    gmNext Nx am rho gmOld (Nx - 1) = gmOld (Nx - 1) := by
  unfold gmNext
  rw [if_neg (by omega)]

lemma bufInv_initC (p : CParams) (r1 r2 : ℕ → ℚ) : bufInv p (initC r1 r2) :=
  ⟨rfl, rfl, rfl, rfl⟩

lemma bufInv_step (p : CParams) (s : CState) (h : bufInv p s) :
    bufInv p (CStep p s) := by
  obtain ⟨h1, h2, h3, h4⟩ := h
  refine ⟨?_, ?_, ?_, ?_⟩
  · show dpNext p.Nx (posPart (a1 p s.rho1 s.rho2)) s.rho1 s.dp1 0 = 0
    rw [dpNext_zero]; exact h1
  · show gmNext p.Nx (negPart (a1 p s.rho1 s.rho2)) s.rho1 s.gm1 (p.Nx - 1) = 0
    rw [gmNext_last]; exact h2
  · show dpNext p.Nx (posPart (a2 p s.rho1 s.rho2)) s.rho2 s.dp2 0 = 0
    rw [dpNext_zero]; exact h3
  · show gmNext p.Nx (negPart (a2 p s.rho1 s.rho2)) s.rho2 s.gm2 (p.Nx - 1) = 0
    rw [gmNext_last]; exact h4

lemma bufInv_iter (p : CParams) (r1 r2 : ℕ → ℚ) (n : ℕ) :
    bufInv p ((CStep p)^[n] (initC r1 r2)) := by
  induction n with
  | zero => exact bufInv_initC p r1 r2
  | succ k ih =>
      rw [Function.iterate_succ_apply']
      exact bufInv_step p _ ih

/-! ### Helper lemmas: sums of the buffer arrays -/

lemma sum_dpNext (m : ℕ) (ap rho dpOld : ℕ → ℚ) (h0 : dpOld 0 = 0) :
    ∑ i in Finset.range (m + 1), dpNext (m + 1) ap rho dpOld i
      = ∑ i in Finset.range m, ap i * rho i := by
  rw [Finset.sum_range_succ']
  rw [dpNext_zero (m + 1) ap rho dpOld]
  rw [h0, add_zero]
  refine Finset.sum_congr rfl ?_
  intro i hi
  rw [Finset.mem_range] at hi
  unfold dpNext
  rw [if_pos (by omega)]
  simp

lemma sum_gmNext (m : ℕ) (am rho gmOld : ℕ → ℚ) (hlast : gmOld m = 0) :
    ∑ i in Finset.range (m + 1), gmNext (m + 1) am rho gmOld i
      = ∑ i in Finset.range m, am (i + 1) * rho (i + 1) := by
  rw [Finset.sum_range_succ]
  have hm : gmNext (m + 1) am rho gmOld m = gmOld m := by
    unfold gmNext
    rw [if_neg (by omega)]
  rw [hm, hlast, add_zero]
  refine Finset.sum_congr rfl ?_
  intro i hi
  rw [Finset.mem_range] at hi
  unfold gmNext
  rw [if_pos (by omega)]

lemma sum_rhoNext (m : ℕ) (c : ℚ) (av rho dpOld gmOld : ℕ → ℚ)
    (h0 : dpOld 0 = 0) (hlast : gmOld m = 0) :
    ∑ i in Finset.range (m + 1),
        rhoNext (m + 1) c (posPart av) (negPart av) rho
          (dpNext (m + 1) (posPart av) rho dpOld)
          (gmNext (m + 1) (negPart av) rho gmOld) i
      = (∑ i in Finset.range (m + 1), rho i)
        - c * (posPart av m * rho m + negPart av 0 * rho 0) := by
  have hbody : ∀ i ∈ Finset.range (m + 1),
      rhoNext (m + 1) c (posPart av) (negPart av) rho
          (dpNext (m + 1) (posPart av) rho dpOld)
          (gmNext (m + 1) (negPart av) rho gmOld) i
        = rho i - c * (posPart av i * rho i + negPart av i * rho i
            - dpNext (m + 1) (posPart av) rho dpOld i
            - gmNext (m + 1) (negPart av) rho gmOld i) := by
    intro i hi
    rw [Finset.mem_range] at hi
    unfold rhoNext
    rw [if_pos hi]
  rw [Finset.sum_congr rfl hbody, Finset.sum_sub_distrib, ← Finset.mul_sum]
  have hsplit :
      ∑ i in Finset.range (m + 1),
          (posPart av i * rho i + negPart av i * rho i
            - dpNext (m + 1) (posPart av) rho dpOld i
            - gmNext (m + 1) (negPart av) rho gmOld i)
        = posPart av m * rho m + negPart av 0 * rho 0 := by
    rw [Finset.sum_sub_distrib, Finset.sum_sub_distrib, Finset.sum_add_distrib]
    rw [sum_dpNext m (posPart av) rho dpOld h0]
    rw [sum_gmNext m (negPart av) rho gmOld hlast]
    rw [Finset.sum_range_succ (fun i => posPart av i * rho i)]
    rw [Finset.sum_range_succ' (fun i => negPart av i * rho i)]
    ring
  rw [hsplit]

/-- One-step mass balance for `rho1`, on states whose shift buffers
satisfy the invariant. -/
lemma mass_step_rho1 (p : CParams) (s : CState) (hNx : 1 ≤ p.Nx)
    (hinv : bufInv p s) :
    massOf p.Nx (CStep p s).rho1
      = massOf p.Nx s.rho1
        - Dtv p / Dxv p *
          (posPart (a1 p s.rho1 s.rho2) (p.Nx - 1) * s.rho1 (p.Nx - 1)
            + negPart (a1 p s.rho1 s.rho2) 0 * s.rho1 0) := by
  obtain ⟨m, hm⟩ : ∃ m, p.Nx = m + 1 := ⟨p.Nx - 1, by omega⟩
  have hlast : s.gm1 m = 0 := by
    have := hinv.2.1
    rw [hm] at this
    simpa using this
  show massOf p.Nx (rhoNext p.Nx (Dtv p / Dxv p)
      (posPart (a1 p s.rho1 s.rho2)) (negPart (a1 p s.rho1 s.rho2)) s.rho1
      (dpNext p.Nx (posPart (a1 p s.rho1 s.rho2)) s.rho1 s.dp1)
      (gmNext p.Nx (negPart (a1 p s.rho1 s.rho2)) s.rho1 s.gm1)) = _
  unfold massOf
  rw [hm]
  rw [sum_rhoNext m (Dtv p / Dxv p) (a1 p s.rho1 s.rho2) s.rho1 s.dp1 s.gm1
    hinv.1 hlast]
  simp

/-- One-step mass balance for `rho2`. -/
lemma mass_step_rho2 (p : CParams) (s : CState) (hNx : 1 ≤ p.Nx)
    (hinv : bufInv p s) :
    massOf p.Nx (CStep p s).rho2
      = massOf p.Nx s.rho2
        - Dtv p / Dxv p *
          (posPart (a2 p s.rho1 s.rho2) (p.Nx - 1) * s.rho2 (p.Nx - 1)
            + negPart (a2 p s.rho1 s.rho2) 0 * s.rho2 0) := by
  obtain ⟨m, hm⟩ : ∃ m, p.Nx = m + 1 := ⟨p.Nx - 1, by omega⟩
  have hlast : s.gm2 m = 0 := by
    have := hinv.2.2.2
    rw [hm] at this
    simpa using this
  show massOf p.Nx (rhoNext p.Nx (Dtv p / Dxv p)
      (posPart (a2 p s.rho1 s.rho2)) (negPart (a2 p s.rho1 s.rho2)) s.rho2
      (dpNext p.Nx (posPart (a2 p s.rho1 s.rho2)) s.rho2 s.dp2)
      (gmNext p.Nx (negPart (a2 p s.rho1 s.rho2)) s.rho2 s.gm2)) = _
  unfold massOf
  rw [hm]
  rw [sum_rhoNext m (Dtv p / Dxv p) (a2 p s.rho1 s.rho2) s.rho2 s.dp2 s.gm2
    hinv.2.2.1 hlast]
  simp

/-! ### Helper lemmas: flux form of the update -/

lemma rhoNext_lt (Nx : ℕ) (c : ℚ) (ap am rho dpN gmN : ℕ → ℚ) (i : ℕ)
    (h : i < Nx) :
    rhoNext Nx c ap am rho dpN gmN i
      = rho i - c * (ap i * rho i + am i * rho i - dpN i - gmN i) := by
  unfold rhoNext
  rw [if_pos h]

lemma fluxL_zero (Nx : ℕ) (ap am rho : ℕ → ℚ) :
    fluxL Nx ap am rho 0 = 0 - (if 0 < Nx then am 0 * rho 0 else 0) := rfl

lemma fluxL_succ (Nx : ℕ) (ap am rho : ℕ → ℚ) (j : ℕ) :
    fluxL Nx ap am rho (j + 1) = fluxR Nx ap am rho j := rfl

/-- The implemented update of one cell equals the spec's flux form
`ρ_i − c·(F_{i+1/2} − F_{i−1/2})`, given the buffer invariant. -/
lemma rhoNext_flux_cell (Nx : ℕ) (c : ℚ) (av rho dpOld gmOld : ℕ → ℚ)
    (h0 : dpOld 0 = 0) (hlast : gmOld (Nx - 1) = 0) (i : ℕ) (hi : i < Nx) :
    rhoNext Nx c (posPart av) (negPart av) rho
        (dpNext Nx (posPart av) rho dpOld) (gmNext Nx (negPart av) rho gmOld) i
      = rho i - c * (fluxR Nx (posPart av) (negPart av) rho i
          - fluxL Nx (posPart av) (negPart av) rho i) := by
  rcases i with _ | j
  · rw [rhoNext_lt _ _ _ _ _ _ _ _ hi, fluxL_zero, dpNext_zero, h0]
    unfold fluxR
    rw [if_pos hi, if_pos hi]
    unfold gmNext
    by_cases h1 : 0 + 1 < Nx
    · rw [if_pos h1, if_pos h1]
      ring
    · rw [if_neg h1, if_neg h1]
      have hg : gmOld 0 = 0 := by
        have h2 : Nx - 1 = 0 := by omega
        rw [← h2]
        exact hlast
      rw [hg]
      ring
  · rw [rhoNext_lt _ _ _ _ _ _ _ _ hi, fluxL_succ]
    have hdp : dpNext Nx (posPart av) rho dpOld (j + 1)
        = posPart av j * rho j := by
      unfold dpNext
      rw [if_pos ⟨by omega, hi⟩]
      simp
    rw [hdp]
    unfold fluxR
    rw [if_pos hi, if_pos hi, if_pos (by omega : j < Nx)]
    unfold gmNext
    by_cases h2 : j + 1 + 1 < Nx
    · rw [if_pos h2, if_pos h2]
      ring
    · rw [if_neg h2, if_neg h2]
      have hg : gmOld (j + 1) = 0 := by
        have h3 : Nx - 1 = j + 1 := by omega
        rw [← h3]
        exact hlast
      rw [hg]
      ring

/-- One full step satisfies the flux form, given the buffer invariant. -/
lemma fluxForm_step (p : CParams) (s : CState) (hinv : bufInv p s) :
    FluxForm p s := by
  refine ⟨?_, ?_, ?_⟩
  · intro i hi
    exact rhoNext_flux_cell p.Nx (Dtv p / Dxv p) (a1 p s.rho1 s.rho2) s.rho1
      s.dp1 s.gm1 hinv.1 hinv.2.1 i hi
  · intro i hi
    exact rhoNext_flux_cell p.Nx (Dtv p / Dxv p) (a2 p s.rho1 s.rho2) s.rho2
      s.dp2 s.gm2 hinv.2.2.1 hinv.2.2.2 i hi
  · intro a i
    exact ⟨posPart_eq_max a i, negPart_eq_max a i⟩

/-! ### Helper lemmas: positivity preservation -/

lemma rhoNext_nonneg_cell (Nx : ℕ) (Dt Dx : ℚ) (av rho dpOld gmOld : ℕ → ℚ)
    (hDt : 0 ≤ Dt) (hDx : 0 < Dx) (h0 : dpOld 0 = 0)
    (hlast : gmOld (Nx - 1) = 0) (hrho : ∀ i < Nx, 0 ≤ rho i)
    (hcfl : ∀ i < Nx, Dt * |av i| / Dx ≤ 1) (i : ℕ) (hi : i < Nx) :
    0 ≤ rhoNext Nx (Dt / Dx) (posPart av) (negPart av) rho
        (dpNext Nx (posPart av) rho dpOld)
        (gmNext Nx (negPart av) rho gmOld) i := by
  rw [rhoNext_lt _ _ _ _ _ _ _ _ hi]
  have hc : 0 ≤ Dt / Dx := div_nonneg hDt hDx.le
  have hcoef : 0 ≤ 1 - Dt / Dx * (posPart av i + negPart av i) := by
    have h1 : Dt / Dx * |av i| ≤ 1 := by
      have h2 := hcfl i hi
      have h3 : Dt / Dx * |av i| = Dt * |av i| / Dx := by ring
      rw [h3]
      exact h2
    rw [posPart_add_negPart]
    linarith
  have hdp : 0 ≤ dpNext Nx (posPart av) rho dpOld i := by
    unfold dpNext
    by_cases h : 1 ≤ i ∧ i < Nx
    · rw [if_pos h]
      exact mul_nonneg (posPart_nonneg av (i - 1)) (hrho (i - 1) (by omega))
    · rw [if_neg h]
      have hz : i = 0 := by omega
      rw [hz, h0]
  have hgm : 0 ≤ gmNext Nx (negPart av) rho gmOld i := by
    unfold gmNext
    by_cases h : i + 1 < Nx
    · rw [if_pos h]
      exact mul_nonneg (negPart_nonneg av (i + 1)) (hrho (i + 1) h)
    · rw [if_neg h]
      have hz : i = Nx - 1 := by omega
      rw [hz, hlast]
  have hexp : rho i - Dt / Dx * (posPart av i * rho i + negPart av i * rho i
        - dpNext Nx (posPart av) rho dpOld i
        - gmNext Nx (negPart av) rho gmOld i)
      = rho i * (1 - Dt / Dx * (posPart av i + negPart av i))
        + Dt / Dx * (dpNext Nx (posPart av) rho dpOld i
            + gmNext Nx (negPart av) rho gmOld i) := by
    ring
  rw [hexp]
  have hterm1 := mul_nonneg (hrho i hi) hcoef
  have hterm2 := mul_nonneg hc (by linarith :
    (0:ℚ) ≤ dpNext Nx (posPart av) rho dpOld i
      + gmNext Nx (negPart av) rho gmOld i)
  linarith

/-- One step preserves elementwise nonnegativity under the CFL
condition for the current velocities. -/
lemma nonneg_step (p : CParams) (s : CState)
    (hDt : 0 ≤ Dtv p) (hDx : 0 < Dxv p) (hinv : bufInv p s)
    (hnn : NonNegState p s) (hc : CFL p s) : NonNegState p (CStep p s) := by
  intro i hi
  constructor
  · exact rhoNext_nonneg_cell p.Nx (Dtv p) (Dxv p) (a1 p s.rho1 s.rho2)
      s.rho1 s.dp1 s.gm1 hDt hDx hinv.1 hinv.2.1
      (fun k hk => (hnn k hk).1) hc.1 i hi
  · exact rhoNext_nonneg_cell p.Nx (Dtv p) (Dxv p) (a2 p s.rho1 s.rho2)
      s.rho2 s.dp2 s.gm2 hDt hDx hinv.2.2.1 hinv.2.2.2
      (fun k hk => (hnn k hk).2) hc.2 i hi

/-! ### Helper lemmas: zero-interaction degeneracy -/

lemma a1_zero (p : CParams) (hW1 : ∀ x, p.dxW1 x = 0) (hK : ∀ x, p.dxK x = 0)
    (r1 r2 : ℕ → ℚ) (i : ℕ) : a1 p r1 r2 i = 0 := by
  unfold a1 matVec W1p Kp
  simp [hW1, hK]

lemma a2_zero (p : CParams) (hW2 : ∀ x, p.dxW2 x = 0) (hK : ∀ x, p.dxK x = 0)
    (r1 r2 : ℕ → ℚ) (i : ℕ) : a2 p r1 r2 i = 0 := by
  unfold a2 matVec W2p Kp
  simp [hW2, hK]

lemma CStep_frozen (p : CParams) (hW1 : ∀ x, p.dxW1 x = 0)
    (hW2 : ∀ x, p.dxW2 x = 0) (hK : ∀ x, p.dxK x = 0) (r1 r2 : ℕ → ℚ) :
    CStep p (initC r1 r2) = initC r1 r2 := by
  have hp1 : ∀ i, posPart (a1 p r1 r2) i = 0 := by
    intro i
    rw [posPart_eq_max, a1_zero p hW1 hK r1 r2 i]
    simp
  have hm1 : ∀ i, negPart (a1 p r1 r2) i = 0 := by
    intro i
    rw [negPart_eq_max, a1_zero p hW1 hK r1 r2 i]
    simp
  have hp2 : ∀ i, posPart (a2 p r1 r2) i = 0 := by
    intro i
    rw [posPart_eq_max, a2_zero p hW2 hK r1 r2 i]
    simp
  have hm2 : ∀ i, negPart (a2 p r1 r2) i = 0 := by
    intro i
    rw [negPart_eq_max, a2_zero p hW2 hK r1 r2 i]
    simp
  have hdp1 : ∀ i, dpNext p.Nx (posPart (a1 p r1 r2)) r1 (fun _ => 0) i = 0 := by
    intro i
    unfold dpNext
    by_cases h : 1 ≤ i ∧ i < p.Nx
    · rw [if_pos h, hp1]
      ring
    · rw [if_neg h]
  have hgm1 : ∀ i, gmNext p.Nx (negPart (a1 p r1 r2)) r1 (fun _ => 0) i = 0 := by
    intro i
    unfold gmNext
    by_cases h : i + 1 < p.Nx
    · rw [if_pos h, hm1]
      ring
    · rw [if_neg h]
  have hdp2 : ∀ i, dpNext p.Nx (posPart (a2 p r1 r2)) r2 (fun _ => 0) i = 0 := by
    intro i
    unfold dpNext
    by_cases h : 1 ≤ i ∧ i < p.Nx
    · rw [if_pos h, hp2]
      ring
    · rw [if_neg h]
  have hgm2 : ∀ i, gmNext p.Nx (negPart (a2 p r1 r2)) r2 (fun _ => 0) i = 0 := by
    intro i
    unfold gmNext
    by_cases h : i + 1 < p.Nx
    · rw [if_pos h, hm2]
      ring
    · rw [if_neg h]
  refine CState.ext ?_ ?_ ?_ ?_ ?_ ?_
  · funext i
    show rhoNext p.Nx (Dtv p / Dxv p) (posPart (a1 p r1 r2))
        (negPart (a1 p r1 r2)) r1
        (dpNext p.Nx (posPart (a1 p r1 r2)) r1 (fun _ => 0))
        (gmNext p.Nx (negPart (a1 p r1 r2)) r1 (fun _ => 0)) i = r1 i
    unfold rhoNext
    by_cases h : i < p.Nx
    · rw [if_pos h, hp1, hm1, hdp1, hgm1]
      ring
    · rw [if_neg h]
  · funext i
    show rhoNext p.Nx (Dtv p / Dxv p) (posPart (a2 p r1 r2))
        (negPart (a2 p r1 r2)) r2
        (dpNext p.Nx (posPart (a2 p r1 r2)) r2 (fun _ => 0))
        (gmNext p.Nx (negPart (a2 p r1 r2)) r2 (fun _ => 0)) i = r2 i
    unfold rhoNext
    by_cases h : i < p.Nx
    · rw [if_pos h, hp2, hm2, hdp2, hgm2]
      ring
    · rw [if_neg h]
  · funext i
    exact hdp1 i
  · funext i
    exact hgm1 i
  · funext i
    exact hdp2 i
  · funext i
    exact hgm2 i

lemma DStep_frozen (p : DParams) (hs1 : ∀ r, p.s1prime r = 0)
    (hs2 : ∀ r, p.s2prime r = 0) (hk : ∀ r, p.kprime r = 0) (s : DState) :
    DStep p s = s := by
  have hdx1 : ∀ i, dx1 p s i = 0 := by
    intro i
    unfold dx1 dxS1 dxK
    simp [hs1, hk]
  have hdy1 : ∀ i, dy1 p s i = 0 := by
    intro i
    unfold dy1 dyS1 dyK
    simp [hs1, hk]
  have hdx2 : ∀ j, dx2 p s j = 0 := by
    intro j
    unfold dx2 dxS2 dxK
    simp [hs2, hk]
  have hdy2 : ∀ j, dy2 p s j = 0 := by
    intro j
    unfold dy2 dyS2 dyK
    simp [hs2, hk]
  refine DState.ext ?_ ?_ ?_ ?_
  · funext i
    show (if i < p.N1 then s.x1 i + p.dt * dx1 p s i else s.x1 i) = s.x1 i
    rw [hdx1]
    split <;> ring
  · funext i
    show (if i < p.N1 then s.y1 i + p.dt * dy1 p s i else s.y1 i) = s.y1 i
    rw [hdy1]
    split <;> ring
  · funext j
    show (if j < p.N2 then s.x2 j + p.dt * dx2 p s j else s.x2 j) = s.x2 j
    rw [hdx2]
    split <;> ring
  · funext j
    show (if j < p.N2 then s.y2 j + p.dt * dy2 p s j else s.y2 j) = s.y2 j
    rw [hdy2]
    split <;> ring

/-! ### Helper lemmas: discrete singularity handling -/

lemma sq_sum_nonneg (a b : ℚ) : 0 ≤ a ^ 2 + b ^ 2 := by positivity

lemma sq_sum_eq_zero {a b : ℚ} (h : a ^ 2 + b ^ 2 = 0) : a = 0 ∧ b = 0 := by
  have ha : a ^ 2 = 0 := by nlinarith [sq_nonneg a, sq_nonneg b]
  have hb : b ^ 2 = 0 := by nlinarith [sq_nonneg a, sq_nonneg b]
  exact ⟨sq_eq_zero_iff.mp ha, sq_eq_zero_iff.mp hb⟩

lemma zeroSub_of_pos {r : ℚ} (h : 0 < r) : zeroSub r = r := by
  unfold zeroSub
  rw [if_pos h, if_neg (by linarith)]
  ring

lemma zeroSub_of_eq {r : ℚ} (h : r = 0) : zeroSub r = 1 := by
  subst h
  unfold zeroSub
  norm_num

lemma zeroSub_pos {r : ℚ} (h : 0 ≤ r) : 0 < zeroSub r := by
  rcases eq_or_lt_of_le h with h1 | h1
  · rw [zeroSub_of_eq h1.symm]
    norm_num
  · rw [zeroSub_of_pos h1]
    exact h1

/-- A raw directional-derivative entry of the code equals the spec's
gradient component (x direction). -/
lemma entryX_spec (f sq : ℚ → ℚ) (hsq : SqrtOK sq) (vx vy : ℚ) :
    vx * f (zeroSub (sq (vx ^ 2 + vy ^ 2))) / zeroSub (sq (vx ^ 2 + vy ^ 2))
      = specGradX f sq vx vy := by
  unfold specGradX
  by_cases h : sq (vx ^ 2 + vy ^ 2) = 0
  · rw [if_pos h]
    have hz : vx ^ 2 + vy ^ 2 = 0 := (hsq.2 _ (sq_sum_nonneg vx vy)).mp h
    have hvx : vx = 0 := (sq_sum_eq_zero hz).1
    rw [hvx]
    ring
  · rw [if_neg h]
    have hpos : 0 < sq (vx ^ 2 + vy ^ 2) :=
      lt_of_le_of_ne (hsq.1 _ (sq_sum_nonneg vx vy)) (Ne.symm h)
    rw [zeroSub_of_pos hpos]

/-- A raw directional-derivative entry of the code equals the spec's
gradient component (y direction). -/
lemma entryY_spec (f sq : ℚ → ℚ) (hsq : SqrtOK sq) (vx vy : ℚ) :
    vy * f (zeroSub (sq (vx ^ 2 + vy ^ 2))) / zeroSub (sq (vx ^ 2 + vy ^ 2))
      = specGradY f sq vx vy := by
  unfold specGradY
  by_cases h : sq (vx ^ 2 + vy ^ 2) = 0
  · rw [if_pos h]
    have hz : vx ^ 2 + vy ^ 2 = 0 := (hsq.2 _ (sq_sum_nonneg vx vy)).mp h
    have hvy : vy = 0 := (sq_sum_eq_zero hz).2
    rw [hvy]
    ring
  · rw [if_neg h]
    have hpos : 0 < sq (vx ^ 2 + vy ^ 2) :=
      lt_of_le_of_ne (hsq.1 _ (sq_sum_nonneg vx vy)) (Ne.symm h)
    rw [zeroSub_of_pos hpos]

lemma specGradX_neg (f sq : ℚ → ℚ) (vx vy : ℚ) :
    specGradX f sq (-vx) (-vy) = -specGradX f sq vx vy := by
  unfold specGradX
  have harg : (-vx) ^ 2 + (-vy) ^ 2 = vx ^ 2 + vy ^ 2 := by ring
  rw [harg]
  by_cases h : sq (vx ^ 2 + vy ^ 2) = 0
  · rw [if_pos h, if_pos h]
    ring
  · rw [if_neg h, if_neg h]
    ring

lemma specGradY_neg (f sq : ℚ → ℚ) (vx vy : ℚ) :
    specGradY f sq (-vx) (-vy) = -specGradY f sq vx vy := by
  unfold specGradY
  have harg : (-vx) ^ 2 + (-vy) ^ 2 = vx ^ 2 + vy ^ 2 := by ring
  rw [harg]
  by_cases h : sq (vx ^ 2 + vy ^ 2) = 0
  · rw [if_pos h, if_pos h]
    ring
  · rw [if_neg h, if_neg h]
    ring

/-- The discrete loop count evaluates to `1001` on the notebook's
configuration: `nT = int(5/0.005) = 1000` and the loop has `nT + 1`
iterations. -/
lemma discrete_count_value : discreteNumSteps discP.Tf discP.dt = 1001 := by
  have hq : discP.Tf / discP.dt = 1000 := by norm_num [discP]
  unfold discreteNumSteps nTof pyInt
  rw [hq, if_neg (by norm_num)]
  norm_num
  rfl

/-! ### Claim theorems -/

/-- C1: at every time step the sums of `rho1` and `rho2` are exactly
conserved by the upwind update whenever the corresponding density is
zero in the first and last grid cells, and the sums may decrease but
never increase when nonnegative density reaches a boundary cell (for
nonnegative `Dt` and positive `Dx`); the statement holds for every
state whose shift buffers satisfy the invariant, which (by C7) is every
state the solver loop reaches. -/
theorem continuum_mass_conservation (p : CParams) (s : CState)
    (hNx : 1 ≤ p.Nx) (hinv : bufInv p s) : MassLaw p s := by
  have h1 := mass_step_rho1 p s hNx hinv
  have h2 := mass_step_rho2 p s hNx hinv
  refine ⟨?_, ?_, ?_, ?_⟩
  · intro hz0 hzl
    rw [h1, hz0, hzl]
    ring
  · intro hDt hDx hb0 hbl
    rw [h1]
    have hc : 0 ≤ Dtv p / Dxv p := div_nonneg hDt hDx.le
    have ht : 0 ≤ posPart (a1 p s.rho1 s.rho2) (p.Nx - 1) * s.rho1 (p.Nx - 1)
        + negPart (a1 p s.rho1 s.rho2) 0 * s.rho1 0 := by
      have hx := mul_nonneg (posPart_nonneg (a1 p s.rho1 s.rho2) (p.Nx - 1)) hbl
      have hy := mul_nonneg (negPart_nonneg (a1 p s.rho1 s.rho2) 0) hb0
      linarith
    have := mul_nonneg hc ht
    linarith
  · intro hz0 hzl
    rw [h2, hz0, hzl]
    ring
  · intro hDt hDx hb0 hbl
    rw [h2]
    have hc : 0 ≤ Dtv p / Dxv p := div_nonneg hDt hDx.le
    have ht : 0 ≤ posPart (a2 p s.rho1 s.rho2) (p.Nx - 1) * s.rho2 (p.Nx - 1)
        + negPart (a2 p s.rho1 s.rho2) 0 * s.rho2 0 := by
      have hx := mul_nonneg (posPart_nonneg (a2 p s.rho1 s.rho2) (p.Nx - 1)) hbl
      have hy := mul_nonneg (negPart_nonneg (a2 p s.rho1 s.rho2) 0) hb0
      linarith
    have := mul_nonneg hc ht
    linarith

theorem continuum_mass_conservation_witness :
    1 ≤ cWitP.Nx ∧ bufInv cWitP (initC rWit1 rWit2)
      ∧ MassLaw cWitP (initC rWit1 rWit2) :=
  ⟨by decide, ⟨rfl, rfl, rfl, rfl⟩,
    continuum_mass_conservation cWitP (initC rWit1 rWit2) (by decide)
      ⟨rfl, rfl, rfl, rfl⟩⟩

/-- C2: every step updates each density by
`ρ_i ↦ ρ_i − (Δt/Δx)(F_{i+1/2} − F_{i−1/2})` with the donor-cell flux
`F_{i+1/2} = a⁺_i·ρ_i − a⁻_{i+1}·ρ_{i+1}`, where the split parts equal
`max(a,0)` and `max(-a,0)` (both `0` where `a = 0`), and the flux
contributions are zero-padded at the domain edges so boundary cells
receive no inflow from outside; stated for every state whose shift
buffers satisfy the invariant kept by the loop. -/
theorem upwind_flux_form (p : CParams) (s : CState) (hinv : bufInv p s) :
    FluxForm p s := by
  refine ⟨?_, ?_, ?_⟩
  · intro i hi
    exact rhoNext_flux_cell p.Nx (Dtv p / Dxv p) (a1 p s.rho1 s.rho2) s.rho1
      s.dp1 s.gm1 hinv.1 hinv.2.1 i hi
  · intro i hi
    exact rhoNext_flux_cell p.Nx (Dtv p / Dxv p) (a2 p s.rho1 s.rho2) s.rho2
      s.dp2 s.gm2 hinv.2.2.1 hinv.2.2.2 i hi
  · intro a i
    exact ⟨posPart_eq_max a i, negPart_eq_max a i⟩

theorem upwind_flux_form_witness :
    bufInv cWitP (initC rWit1 rWit2) ∧ FluxForm cWitP (initC rWit1 rWit2) :=
  ⟨⟨rfl, rfl, rfl, rfl⟩,
    upwind_flux_form cWitP (initC rWit1 rWit2) ⟨rfl, rfl, rfl, rfl⟩⟩

/-- C3: at every step the velocity fields are exactly
`a1 = -(W1' @ ρ1 + K' @ ρ2)` and `a2 = -(W2' @ ρ2 - β·K' @ ρ1)`, i.e.
`a1[i] = -Σ_l (ρ1[l]·W1'(x_i−x_l) + ρ2[l]·K'(x_i−x_l))` and the
β-weighted sign-flipped analogue for `a2`, with the matrices holding
the kernel derivatives at pairwise grid-point differences; determinism
and absence of mutation are intrinsic to this purely functional
embedding (`a1`, `a2` are functions of the current densities alone and
the matrices are constants of the parameters). -/
theorem velocity_builder_formula (p : CParams) (r1 r2 : ℕ → ℚ) :
    (∀ i, a1 p r1 r2 i
        = -(∑ l in Finset.range p.Nx,
            (r1 l * p.dxW1 (gridPt p i - gridPt p l)
              + r2 l * p.dxK (gridPt p i - gridPt p l))))
    ∧ (∀ i, a2 p r1 r2 i
        = -(∑ l in Finset.range p.Nx,
            (r2 l * p.dxW2 (gridPt p i - gridPt p l)
              - p.beta * (r1 l * p.dxK (gridPt p i - gridPt p l)))))
    ∧ (∀ i j, W1p p i j = p.dxW1 (gridPt p i - gridPt p j)
        ∧ W2p p i j = p.dxW2 (gridPt p i - gridPt p j)
        ∧ Kp p i j = p.dxK (gridPt p i - gridPt p j)) := by
  refine ⟨?_, ?_, ?_⟩
  · intro i
    unfold a1 matVec W1p Kp
    rw [← Finset.sum_add_distrib]
    congr 1
    refine Finset.sum_congr rfl ?_
    intro l hl
    ring
  · intro i
    unfold a2 matVec W2p Kp
    rw [Finset.mul_sum, ← Finset.sum_sub_distrib]
    congr 1
    refine Finset.sum_congr rfl ?_
    intro l hl
    ring
  · intro i j
    exact ⟨rfl, rfl, rfl⟩

/-- C4: for every particle configuration, every entry of the six
directional-derivative matrices is a well-defined finite rational:
after the substitution every denominator is strictly positive, a
zero-distance entry has its denominator replaced by `1` while its
numerator is already `0`, and every coincident pair — diagonal
self-pairs included — contributes exactly `0`. -/
theorem discrete_matrices_safe (p : DParams) (s : DState)
    (hsq : SqrtOK p.sqrtFn) : SafeDerivMatrices p s := by
  intro i j
  have hn1 : 0 ≤ norm1Diff p s i j :=
    hsq.1 _ (sq_sum_nonneg (s.x1 i - s.x1 j) (s.y1 i - s.y1 j))
  have hn12 : 0 ≤ norm12Diff p s i j :=
    hsq.1 _ (sq_sum_nonneg (s.x1 i - s.x2 j) (s.y1 i - s.y2 j))
  have hn2 : 0 ≤ norm2Diff p s i j :=
    hsq.1 _ (sq_sum_nonneg (s.x2 i - s.x2 j) (s.y2 i - s.y2 j))
  refine ⟨⟨zeroSub_pos hn1, zeroSub_pos hn12, zeroSub_pos hn2⟩, ?_, ?_, ?_, ?_⟩
  · intro h
    have hz : (s.x1 i - s.x1 j) ^ 2 + (s.y1 i - s.y1 j) ^ 2 = 0 :=
      (hsq.2 _ (sq_sum_nonneg (s.x1 i - s.x1 j) (s.y1 i - s.y1 j))).mp h
    obtain ⟨hvx, hvy⟩ := sq_sum_eq_zero hz
    refine ⟨zeroSub_of_eq h, ?_, ?_⟩
    · unfold dxS1
      rw [hvx]
      ring
    · unfold dyS1
      rw [hvy]
      ring
  · intro h
    have hz : (s.x1 i - s.x2 j) ^ 2 + (s.y1 i - s.y2 j) ^ 2 = 0 :=
      (hsq.2 _ (sq_sum_nonneg (s.x1 i - s.x2 j) (s.y1 i - s.y2 j))).mp h
    obtain ⟨hvx, hvy⟩ := sq_sum_eq_zero hz
    refine ⟨zeroSub_of_eq h, ?_, ?_⟩
    · unfold dxK
      rw [hvx]
      ring
    · unfold dyK
      rw [hvy]
      ring
  · intro h
    have hz : (s.x2 i - s.x2 j) ^ 2 + (s.y2 i - s.y2 j) ^ 2 = 0 :=
      (hsq.2 _ (sq_sum_nonneg (s.x2 i - s.x2 j) (s.y2 i - s.y2 j))).mp h
    obtain ⟨hvx, hvy⟩ := sq_sum_eq_zero hz
    refine ⟨zeroSub_of_eq h, ?_, ?_⟩
    · unfold dxS2
      rw [hvx]
      ring
    · unfold dyS2
      rw [hvy]
      ring
  · refine ⟨?_, ?_, ?_, ?_⟩
    · unfold dxS1
      rw [sub_self]
      ring
    · unfold dyS1
      rw [sub_self]
      ring
    · unfold dxS2
      rw [sub_self]
      ring
    · unfold dyS2
      rw [sub_self]
      ring

theorem discrete_matrices_safe_witness :
    SqrtOK dWitP.sqrtFn ∧ SafeDerivMatrices dWitP dWitS :=
  ⟨⟨fun _ h => h, fun _ _ => Iff.rfl⟩,
    discrete_matrices_safe dWitP dWitS ⟨fun _ h => h, fun _ _ => Iff.rfl⟩⟩

/-- C5: the implemented particle velocities agree with the spec
formulas: predator velocity is minus the mean of its self-interaction
gradient terms (over `N1`) minus the mean of its cross terms (over
`N2`); prey velocity is minus the mean of its self terms (over `N2`)
PLUS `α` times the mean over predators of `∇K` evaluated at
prey-minus-predator differences — the code's `-α·sum(dxK.T,axis=1)/N1`
with `dxK` built from predator-minus-prey differences equals that
positive cross term. -/
theorem discrete_velocity_matches_spec (p : DParams) (s : DState)
    (hsq : SqrtOK p.sqrtFn) : VelocitySpecForm p s := by
  refine ⟨?_, ?_, ?_, ?_⟩
  · intro i
    unfold dx1
    have h1 : ∑ j in Finset.range p.N1, dxS1 p s i j
        = ∑ k in Finset.range p.N1,
            specGradX p.s1prime p.sqrtFn (s.x1 i - s.x1 k) (s.y1 i - s.y1 k) :=
      Finset.sum_congr rfl fun k _ =>
        entryX_spec p.s1prime p.sqrtFn hsq (s.x1 i - s.x1 k) (s.y1 i - s.y1 k)
    have h2 : ∑ h in Finset.range p.N2, dxK p s i h
        = ∑ h in Finset.range p.N2,
            specGradX p.kprime p.sqrtFn (s.x1 i - s.x2 h) (s.y1 i - s.y2 h) :=
      Finset.sum_congr rfl fun h _ =>
        entryX_spec p.kprime p.sqrtFn hsq (s.x1 i - s.x2 h) (s.y1 i - s.y2 h)
    rw [h1, h2]
  · intro i
    unfold dy1
    have h1 : ∑ j in Finset.range p.N1, dyS1 p s i j
        = ∑ k in Finset.range p.N1,
            specGradY p.s1prime p.sqrtFn (s.x1 i - s.x1 k) (s.y1 i - s.y1 k) :=
      Finset.sum_congr rfl fun k _ =>
        entryY_spec p.s1prime p.sqrtFn hsq (s.x1 i - s.x1 k) (s.y1 i - s.y1 k)
    have h2 : ∑ h in Finset.range p.N2, dyK p s i h
        = ∑ h in Finset.range p.N2,
            specGradY p.kprime p.sqrtFn (s.x1 i - s.x2 h) (s.y1 i - s.y2 h) :=
      Finset.sum_congr rfl fun h _ =>
        entryY_spec p.kprime p.sqrtFn hsq (s.x1 i - s.x2 h) (s.y1 i - s.y2 h)
    rw [h1, h2]
  · intro j
    unfold dx2
    have h1 : ∑ h in Finset.range p.N2, dxS2 p s j h
        = ∑ h in Finset.range p.N2,
            specGradX p.s2prime p.sqrtFn (s.x2 j - s.x2 h) (s.y2 j - s.y2 h) :=
      Finset.sum_congr rfl fun h _ =>
        entryX_spec p.s2prime p.sqrtFn hsq (s.x2 j - s.x2 h) (s.y2 j - s.y2 h)
    have h2 : ∑ k in Finset.range p.N1, dxK p s k j
        = -∑ k in Finset.range p.N1,
            specGradX p.kprime p.sqrtFn (s.x2 j - s.x1 k) (s.y2 j - s.y1 k) := by
      rw [← Finset.sum_neg_distrib]
      refine Finset.sum_congr rfl ?_
      intro k _
      have e1 : dxK p s k j
          = specGradX p.kprime p.sqrtFn (s.x1 k - s.x2 j) (s.y1 k - s.y2 j) :=
        entryX_spec p.kprime p.sqrtFn hsq (s.x1 k - s.x2 j) (s.y1 k - s.y2 j)
      rw [e1]
      have e2 : s.x1 k - s.x2 j = -(s.x2 j - s.x1 k) := by ring
      have e3 : s.y1 k - s.y2 j = -(s.y2 j - s.y1 k) := by ring
      rw [e2, e3, specGradX_neg]
    rw [h1, h2]
    ring
  · intro j
    unfold dy2
    have h1 : ∑ h in Finset.range p.N2, dyS2 p s j h
        = ∑ h in Finset.range p.N2,
            specGradY p.s2prime p.sqrtFn (s.x2 j - s.x2 h) (s.y2 j - s.y2 h) :=
      Finset.sum_congr rfl fun h _ =>
        entryY_spec p.s2prime p.sqrtFn hsq (s.x2 j - s.x2 h) (s.y2 j - s.y2 h)
    have h2 : ∑ k in Finset.range p.N1, dyK p s k j
        = -∑ k in Finset.range p.N1,
            specGradY p.kprime p.sqrtFn (s.x2 j - s.x1 k) (s.y2 j - s.y1 k) := by
      rw [← Finset.sum_neg_distrib]
      refine Finset.sum_congr rfl ?_
      intro k _
      have e1 : dyK p s k j
          = specGradY p.kprime p.sqrtFn (s.x1 k - s.x2 j) (s.y1 k - s.y2 j) :=
        entryY_spec p.kprime p.sqrtFn hsq (s.x1 k - s.x2 j) (s.y1 k - s.y2 j)
      rw [e1]
      have e2 : s.x1 k - s.x2 j = -(s.x2 j - s.x1 k) := by ring
      have e3 : s.y1 k - s.y2 j = -(s.y2 j - s.y1 k) := by ring
      rw [e2, e3, specGradY_neg]
    rw [h1, h2]
    ring

theorem discrete_velocity_matches_spec_witness :
    SqrtOK dWitP.sqrtFn ∧ VelocitySpecForm dWitP dWitS :=
  ⟨⟨fun _ h => h, fun _ _ => Iff.rfl⟩,
    discrete_velocity_matches_spec dWitP dWitS ⟨fun _ h => h, fun _ _ => Iff.rfl⟩⟩

/-- C6: if the initial densities are elementwise nonnegative and the
CFL condition `Δt·|a_i|/Δx ≤ 1` holds for the velocity fields of every
step performed, then both densities remain elementwise nonnegative
after every step of the upwind update (exactly `≥ 0` in exact
arithmetic, which implies the spec's `≥ -ε` up to roundoff). -/
theorem continuum_nonnegativity (p : CParams) (r1 r2 : ℕ → ℚ)
    (hDt : 0 ≤ Dtv p) (hDx : 0 < Dxv p)
    (h0 : NonNegState p (initC r1 r2)) (n : ℕ)
    (hcfl : ∀ k, k < n → CFL p ((CStep p)^[k] (initC r1 r2))) :
    NonNegState p ((CStep p)^[n] (initC r1 r2)) := by
  induction n with
  | zero => exact h0
  | succ m ih =>
      rw [Function.iterate_succ_apply']
      exact nonneg_step p ((CStep p)^[m] (initC r1 r2)) hDt hDx
        (bufInv_iter p r1 r2 m)
        (ih fun k hk => hcfl k (by omega)) (hcfl m (by omega))

theorem continuum_nonnegativity_witness :
    0 ≤ Dtv cWitP ∧ 0 < Dxv cWitP ∧ NonNegState cWitP (initC rWit1 rWit2)
      ∧ (∀ k, k < 1 → CFL cWitP ((CStep cWitP)^[k] (initC rWit1 rWit2)))
      ∧ NonNegState cWitP ((CStep cWitP)^[1] (initC rWit1 rWit2)) := by
  have hDt : 0 ≤ Dtv cWitP := by norm_num [Dtv, Tpt, cWitP]
  have hDx : 0 < Dxv cWitP := by norm_num [Dxv, gridPt, cWitP]
  have h0 : NonNegState cWitP (initC rWit1 rWit2) := by
    intro i _
    constructor
    · show (0:ℚ) ≤ rWit1 i
      unfold rWit1
      split <;> norm_num
    · show (0:ℚ) ≤ rWit2 i
      unfold rWit2
      split <;> norm_num
  have hcfl : ∀ k, k < 1 → CFL cWitP ((CStep cWitP)^[k] (initC rWit1 rWit2)) := by
    intro k hk
    have hk0 : k = 0 := by omega
    subst hk0
    rw [Function.iterate_zero_apply]
    unfold CFL
    refine ⟨fun i _ => ?_, fun i _ => ?_⟩
    · show Dtv cWitP * |a1 cWitP rWit1 rWit2 i| / Dxv cWitP ≤ 1
      rw [a1_zero cWitP (fun _ => rfl) (fun _ => rfl) rWit1 rWit2 i]
      simp
    · show Dtv cWitP * |a2 cWitP rWit1 rWit2 i| / Dxv cWitP ≤ 1
      rw [a2_zero cWitP (fun _ => rfl) (fun _ => rfl) rWit1 rWit2 i]
      simp
  exact ⟨hDt, hDx, h0, hcfl,
    continuum_nonnegativity cWitP rWit1 rWit2 hDt hDx h0 1 hcfl⟩

/-- C7: the per-step mass balance is exact —
`Σρ^{n+1} = Σρ^n − (Δt/Δx)·(a⁺[Nx−1]·ρ[Nx−1] + a⁻[0]·ρ[0])` for each
density at every step of a run — and the shift buffers keep index `0`
of `rho_dp` and index `Nx−1` of `rho_gm` equal to `0` on every
iteration, which the telescoping relies on. -/
theorem per_step_mass_balance (p : CParams) (r1 r2 : ℕ → ℚ)
    (hNx : 1 ≤ p.Nx) (n : ℕ) :
    bufInv p ((CStep p)^[n] (initC r1 r2))
      ∧ MassBalance p ((CStep p)^[n] (initC r1 r2)) := by
  have hinv := bufInv_iter p r1 r2 n
  exact ⟨hinv,
    mass_step_rho1 p ((CStep p)^[n] (initC r1 r2)) hNx hinv,
    mass_step_rho2 p ((CStep p)^[n] (initC r1 r2)) hNx hinv⟩

theorem per_step_mass_balance_witness :
    1 ≤ cWitP.Nx
      ∧ (bufInv cWitP ((CStep cWitP)^[1] (initC rWit1 rWit2))
          ∧ MassBalance cWitP ((CStep cWitP)^[1] (initC rWit1 rWit2))) :=
  ⟨by decide, per_step_mass_balance cWitP rWit1 rWit2 (by decide) 1⟩

/-- C8: if all potential derivative functions are identically `0`, the
continuum state (densities and buffers) and the particle positions are
exactly unchanged after every number of steps, in both models. -/
theorem zero_interaction_freeze (p : CParams) (pd : DParams)
    (r1 r2 : ℕ → ℚ) (s : DState)
    (hW1 : ∀ x, p.dxW1 x = 0) (hW2 : ∀ x, p.dxW2 x = 0)
    (hK : ∀ x, p.dxK x = 0)
    (hs1 : ∀ r, pd.s1prime r = 0) (hs2 : ∀ r, pd.s2prime r = 0)
    (hk : ∀ r, pd.kprime r = 0) :
    (∀ n, (CStep p)^[n] (initC r1 r2) = initC r1 r2)
      ∧ (∀ n, (DStep pd)^[n] s = s) := by
  constructor
  · intro n
    exact Function.iterate_fixed (CStep_frozen p hW1 hW2 hK r1 r2) n
  · intro n
    exact Function.iterate_fixed (DStep_frozen pd hs1 hs2 hk s) n

theorem zero_interaction_freeze_witness :
    (∀ x, cWitP.dxW1 x = 0) ∧ (∀ x, cWitP.dxW2 x = 0)
      ∧ (∀ x, cWitP.dxK x = 0) ∧ (∀ r, dWitP.s1prime r = 0)
      ∧ (∀ r, dWitP.s2prime r = 0) ∧ (∀ r, dWitP.kprime r = 0)
      ∧ ((∀ n, (CStep cWitP)^[n] (initC rWit1 rWit2) = initC rWit1 rWit2)
          ∧ (∀ n, (DStep dWitP)^[n] dWitS = dWitS)) :=
  ⟨fun _ => rfl, fun _ => rfl, fun _ => rfl, fun _ => rfl, fun _ => rfl,
    fun _ => rfl,
    zero_interaction_freeze cWitP dWitP rWit1 rWit2 dWitS
      (fun _ => rfl) (fun _ => rfl) (fun _ => rfl)
      (fun _ => rfl) (fun _ => rfl) (fun _ => rfl)⟩

/-- C9 counterexample: the discrete run configured with `Δt = 0.005`
and `T = 5` does NOT perform exactly 1000 time steps: the loop
`for n,k in enumerate(linspace(0,T,nT+1))` iterates over `nT+1 = 1001`
time points. -/
theorem discrete_step_count_counterexample :
    discreteNumSteps discP.Tf discP.dt ≠ 1000 := by
  rw [discrete_count_value]
  decide

/-- C9 amended: each run is a single linear sequence of steps; the
continuum run performs exactly `Nt = 1000` steps, while the discrete
run performs `nT + 1 = int(T/Δt) + 1` steps — `1001` steps for
`Δt = 0.005`, `T = 5` (terminal loop index `n = nT = 1000`). -/
theorem step_count_amended :
    continuumNumSteps contP = 1000
      ∧ discreteNumSteps discP.Tf discP.dt = 1001
      ∧ (∀ p : CParams, ∀ s : CState, CRun p s = (CStep p)^[p.Nt] s)
      ∧ (∀ p : DParams, ∀ s : DState,
          DRun p s = (DStep p)^[discreteNumSteps p.Tf p.dt] s) :=
  ⟨rfl, discrete_count_value, fun _ _ => rfl, fun _ _ => rfl⟩

/-- C10 counterexample: a configuration with a negative time horizon
(`tf = -1`, all other parameters as in the concrete run) is invalid
according to the claim, yet the solver loop executes all 1000 steps —
no fail-fast happens before the step loop. -/
theorem fail_fast_counterexample :
    (-1 : ℚ) < 0 ∧ continuumStepsExecuted (-1) 1 256 1000 (-1) = 1000 := by
  constructor
  · norm_num
  · decide

/-- C10 amended: configurations with `Nx < 2` or `Nt < 2` (in
particular non-positive `Nx` or `Nt`) make the setup phase raise
before the step loop, so no step is executed; but configurations with
`xmin ≥ xmax` or a negative time horizon are not rejected — the step
loop executes all `Nt` steps. -/
theorem config_failure_amended (xmin xmax : ℚ) (Nx Nt : ℤ) (tf : ℚ) :
    continuumStepsExecuted xmin xmax Nx Nt tf
      = if Nx < 2 ∨ Nt < 2 then 0 else Nt.toNat := by
  unfold continuumStepsExecuted continuumSetup
  by_cases h : Nx < 2 ∨ Nt < 2
  · rw [if_pos h, if_pos h]
  · rw [if_neg h, if_neg h]

end EqAgg
